import Mathlib

/-!
Verification of the brummer documentation image auditor scripts,
`find_doc_images.py` (Variant A) and `find_images.py` (Variant B).

Modelling conventions:
* a Python `str` is a list of characters (`Str`), compared and ordered by
  code point exactly as Python compares strings;
* the filesystem below the hard-coded root is abstracted as the list of
  files `rglob` enumerates (absolute path plus decoded text content), in
  enumeration order, and as a Boolean existence predicate for the
  missing-file check;
* `pathlib` joining of relative parts is string concatenation with `/`;
* `re.findall` for the fixed pattern is implemented as a deterministic
  left-to-right scanner, which is exact for this pattern because both
  character classes exclude their closing delimiter, so the regex engine
  never backtracks;
* a file whose content cannot be decoded is modelled separately with an
  `Option` content and an `Except` result, mirroring the unguarded
  `open`/`read` calls.
-/

namespace ImageAudit

/-- Python strings are modelled as lists of characters. -/
abbrev Str := List Char

/-- The list of characters of a Lean string literal. -/
def chars (s : String) : Str := s.toList

/-- Path normalization from `find_doc_images.py` (lines 44-49): strip one
leading `../` (3 characters), else one leading `./` (2 characters), else
return the path unchanged. -/
def normalize (path : Str) : Str :=
  if chars "../" <+: path then path.drop 3
  else if chars "./" <+: path then path.drop 2
  else path

/-- The extension allow-list (line 26 of Variant A, line 23 of Variant B). -/
def imageExtensions : List Str :=
  [chars ".png", chars ".jpg", chars ".jpeg", chars ".gif", chars ".svg", chars ".webp"]

/-- The filter `any(img_path.endswith(ext) for ext in [...])`. -/
def isImagePath (p : Str) : Bool :=
  imageExtensions.any (fun ext => decide (ext <:+ p))

/-- One attempt of the pattern `!\[([^\]]*)\]\(([^)]+)\)` at a position just
after a literal `![`: greedily take the alt text (characters other than `]`),
require `](`, greedily take a nonempty path (characters other than `)`),
require `)`.  Returns the alt text, the path and the remaining input.  The
greedy classes stop at the first excluded delimiter, so this is exactly the
regex semantics with no backtracking. -/
def tryMatch (cs : Str) : Option (Str × Str × Str) :=
  let alt := cs.takeWhile (fun c => c ≠ ']')
  match cs.dropWhile (fun c => c ≠ ']') with
  | ']' :: '(' :: rest =>
    let path := rest.takeWhile (fun c => c ≠ ')')
    match rest.dropWhile (fun c => c ≠ ')') with
    | ')' :: rest4 => if path = [] then none else some (alt, path, rest4)
    | _ => none
  | _ => none

/-- The scanning loop of `re.findall` for the image pattern: a failed
attempt advances one character, a successful match resumes after the match
(matches are non-overlapping).  `fuel` bounds the recursion; every
recursive call strictly shortens the input, so `fuel = length` is exact. -/
def findallAux : Nat → Str → List (Str × Str)
  | 0, _ => []
  | _ + 1, [] => []
  | fuel + 1, c :: cs =>
    if c = '!' then
      match cs with
      | '[' :: cs2 =>
        match tryMatch cs2 with
        | some (alt, path, rest) => (alt, path) :: findallAux fuel rest
        | none => findallAux fuel cs
      | _ => findallAux fuel cs
    else findallAux fuel cs

/-- `img_pattern.findall(content)` (line 24 of Variant A, line 21 of
Variant B): all non-overlapping matches in document order. -/
def findall (content : Str) : List (Str × Str) :=
  findallAux content.length content

/-- One extracted image reference (the dict built at lines 27-31). -/
structure ImageRef where
  file : Str
  alt_text : Str
  path : Str
deriving DecidableEq

/-- The hard-coded root `docs_site_path` (line 7 of both scripts). -/
def docs_site_path : Str := chars "/home/beagle/work/brummer/docs-site"

/-- `str(md_file.relative_to(docs_site_path))`: drop the root and the
separator that follows it. -/
def relative_to (p : Str) : Str := p.drop (docs_site_path.length + 1)

/-- A file under the root as `rglob` would yield it: absolute path plus
decoded text content. -/
structure FileEntry where
  path : Str
  content : Str
deriving DecidableEq

/-- The filesystem below `docs_site_path`, abstracted as the list of all
files in enumeration order. -/
abbrev FileSys := List FileEntry

/-- The dependency-cache marker excluded by Variant A. -/
def nodeModulesMarker : Str := chars "node_modules"

/-- Variant A document enumeration (lines 10-13): the `*.md` files whose
absolute path does not contain `node_modules` as a substring. -/
def md_filesA (fs : FileSys) : List FileEntry :=
  fs.filter (fun f => decide (chars ".md" <:+ f.path) && ! decide (nodeModulesMarker <:+: f.path))

/-- Variant B document enumeration (line 9 of `find_images.py`): all the
`*.md` files, with no exclusion. -/
def md_filesB (fs : FileSys) : List FileEntry :=
  fs.filter (fun f => decide (chars ".md" <:+ f.path))

/-- The body of the per-file loop (lines 24-31 of Variant A, 21-28 of
Variant B): every match whose path passes the extension filter becomes an
`ImageRef` record, in match order. -/
def extractRefs (filePath content : Str) : List ImageRef :=
  ((findall content).filter (fun m => isImagePath m.2)).map
    (fun m => ⟨relative_to filePath, m.1, m.2⟩)

/-- The whole extraction loop over a list of documents. -/
def image_refsOf (files : List FileEntry) : List ImageRef :=
  files.flatMap (fun f => extractRefs f.path f.content)

/-- `image_refs` as computed by Variant A. -/
def image_refsA (fs : FileSys) : List ImageRef := image_refsOf (md_filesA fs)

/-- `image_refs` as computed by Variant B. -/
def image_refsB (fs : FileSys) : List ImageRef := image_refsOf (md_filesB fs)

/-- Python `sorted(set(xs))`: the lexicographically sorted list of the
distinct elements of `xs`. -/
def sortedUnique (l : List Str) : List Str :=
  List.insertionSort (· ≤ ·) l.dedup

/-- Variant A unique paths (lines 42-50 and 53): the normalized paths,
deduplicated and sorted. -/
def unique_pathsA (refs : List ImageRef) : List Str :=
  sortedUnique (refs.map (fun r => normalize r.path))

/-- Variant B unique paths (line 38 of `find_images.py`): the raw paths,
deduplicated and sorted. -/
def unique_pathsB (refs : List ImageRef) : List Str :=
  sortedUnique (refs.map (fun r => r.path))

/-- `docs_site_path / "static" / path` (line 59): the expected location of
a referenced image under the assets root. -/
def full_path (p : Str) : Str := docs_site_path ++ chars "/static/" ++ p

/-- The missing-images report of Variant A (lines 56-61): among the sorted
unique normalized paths, those whose full path does not exist.  `ex` is the
filesystem existence predicate. -/
def missingA (ex : Str → Bool) (refs : List ImageRef) : List Str :=
  (unique_pathsA refs).filter (fun p => ! ex (full_path p))

/-- One printed line: `print(s)` emits `s` followed by a newline. -/
def line (s : Str) : Str := s ++ ['\n']

/-- The reference list as printed: `sorted(image_refs, key=path)` is a
stable sort by the path field. -/
def sortRefs (refs : List ImageRef) : List ImageRef :=
  List.insertionSort (fun a b => a.path ≤ b.path) refs

/-- The four lines printed for one reference (lines 36-39). -/
def refBlock (r : ImageRef) : Str :=
  line (chars "File: " ++ r.file) ++ line (chars "  Alt: " ++ r.alt_text) ++
    line (chars "  Path: " ++ r.path) ++ line []

/-- Each element printed on its own line. -/
def joinLines (ls : List Str) : Str := (ls.map line).flatten

/-- The first output section of Variant A (lines 34-39): banner, then one
block per reference in path order. -/
def sectionRefsA (refs : List ImageRef) : Str :=
  line (chars "=== Documentation Image References ===") ++
    ((sortRefs refs).map refBlock).flatten

/-- The second output section of Variant A (lines 52-54): banner (printed
with a leading blank line), then the sorted unique normalized paths. -/
def sectionUniqueA (refs : List ImageRef) : Str :=
  line (chars "\n=== Unique Image Paths (normalized) ===") ++
    joinLines (unique_pathsA refs)

/-- The third output section of Variant A (lines 57-61): banner, then one
MISSING line per absent path. -/
def sectionMissingA (ex : Str → Bool) (refs : List ImageRef) : Str :=
  line (chars "\n=== Missing Images ===") ++
    joinLines ((missingA ex refs).map (fun p => chars "MISSING: " ++ p))

/-- The whole standard output of Variant A, written as the sequence of
print statements of the script (lines 34-61). -/
def outputA (fs : FileSys) (ex : Str → Bool) : Str :=
  line (chars "=== Documentation Image References ===") ++
    ((sortRefs (image_refsA fs)).map refBlock).flatten ++
    line (chars "\n=== Unique Image Paths (normalized) ===") ++
    joinLines (unique_pathsA (image_refsA fs)) ++
    line (chars "\n=== Missing Images ===") ++
    joinLines ((missingA ex (image_refsA fs)).map (fun p => chars "MISSING: " ++ p))

/-- A file as `rglob` yields it when decoding may fail: `content = none`
models a `UnicodeDecodeError` raised by `f.read()`. -/
structure RawFileEntry where
  path : Str
  content : Option Str
deriving DecidableEq

/-- The read loop (lines 21-31) with fallible decoding.  The `open`/`read`
calls are not wrapped in any error handling, so the first file that fails
to decode raises, aborting the whole run: later files are not processed
and no reference list is produced. -/
def image_refsRead : List RawFileEntry → Except Str (List ImageRef)
  | [] => Except.ok []
  | f :: rest =>
    match f.content with
    | none => Except.error (chars "UnicodeDecodeError: " ++ f.path)
    | some content =>
      match image_refsRead rest with
      | Except.error e => Except.error e
      | Except.ok tail => Except.ok (extractRefs f.path content ++ tail)

/-! Helper lemmas shared by the claim theorems. -/

theorem sortedUnique_sorted (l : List Str) : (sortedUnique l).Sorted (· ≤ ·) :=
  List.sorted_insertionSort _ _

theorem sortedUnique_nodup (l : List Str) : (sortedUnique l).Nodup :=
  (List.perm_insertionSort _ _).nodup_iff.mpr (List.nodup_dedup l)

theorem sortedUnique_mem {x : Str} {l : List Str} : x ∈ sortedUnique l ↔ x ∈ l :=
  (List.mem_insertionSort _).trans List.mem_dedup

theorem sortedUnique_sorted_lt (l : List Str) : (sortedUnique l).Sorted (· < ·) :=
  (sortedUnique_sorted l).lt_of_le (sortedUnique_nodup l)

theorem tryMatch_path_ne_nil {cs a p r : Str} (h : tryMatch cs = some (a, p, r)) : p ≠ [] := by
  unfold tryMatch at h
  split at h
  · split at h
    · dsimp only at h
      split at h
      · exact absurd h (by simp)
      · rename_i hne
        simp only [Option.some.injEq, Prod.mk.injEq] at h
        obtain ⟨-, hp, -⟩ := h
        exact hp ▸ hne
    · exact absurd h (by simp)
  · exact absurd h (by simp)

theorem findallAux_path_ne_nil : ∀ (fuel : Nat) (cs : Str), ∀ m ∈ findallAux fuel cs, m.2 ≠ [] := by
  intro fuel cs
  induction fuel, cs using findallAux.induct with
  | case1 x => simp [findallAux]
  | case2 n => simp [findallAux]
  | case3 fuel cs2 alt path rest htm ih =>
    intro m hm
    simp [findallAux, htm] at hm
    rcases hm with hm | hm
    · rw [Prod.ext_iff] at hm
      exact hm.2 ▸ tryMatch_path_ne_nil htm
    · exact ih m hm
  | case4 fuel cs2 htm ih =>
    intro m hm
    simp [findallAux, htm] at hm
    exact ih m (by simpa [findallAux, htm] using hm)
  | case5 fuel cs hcs ih =>
    intro m hm
    cases cs with
    | nil => exact ih m (by simpa [findallAux] using hm)
    | cons c2 cs2 =>
      by_cases h2 : c2 = '['
      · exact absurd (h2 ▸ rfl) (fun hh => hcs cs2 hh)
      · exact ih m (by simpa [findallAux, h2] using hm)
  | case6 fuel c cs hc ih =>
    intro m hm
    exact ih m (by simpa [findallAux, hc] using hm)

/-! The claim theorems. -/

/-- Claim C1: the normalize operation is a single-step, non-recursive
prefix strip: a path starting with the 3-character sequence `../` loses
exactly its leading 3 characters, else a path starting with `./` loses
exactly its leading 2 characters, else the path is returned unchanged; in
particular `normalize "../../x.png" = "../x.png"`, not `"x.png"`. -/
theorem c1_normalize_single_step :
    (∀ p : Str, chars "../" <+: p → normalize p = p.drop 3)
    ∧ (∀ s : Str, normalize (chars "../" ++ s) = s)
    ∧ (∀ p : Str, ¬(chars "../" <+: p) → chars "./" <+: p → normalize p = p.drop 2)
    ∧ (∀ p : Str, ¬(chars "../" <+: p) → ¬(chars "./" <+: p) → normalize p = p)
    ∧ normalize (chars "../../x.png") = chars "../x.png"
    ∧ normalize (chars "../../x.png") ≠ chars "x.png" := by
  refine ⟨?_, ?_, ?_, ?_, by decide, by decide⟩
  · intro p h
    simp [normalize, h]
  · intro s
    have h : chars "../" <+: chars "../" ++ s := List.prefix_append _ _
    have hlen : (chars "../").length = 3 := by decide
    rw [show normalize (chars "../" ++ s) = (chars "../" ++ s).drop 3 from by simp [normalize, h],
      ← hlen]
    exact List.drop_left _ _
  · intro p h1 h2
    simp [normalize, h1, h2]
  · intro p h1 h2
    simp [normalize, h1, h2]

/-- Witness for C1 at concrete inputs. -/
theorem c1_normalize_single_step_witness :
    normalize (chars "../a/b.png") = (chars "../a/b.png").drop 3
    ∧ normalize (chars "./c.png") = (chars "./c.png").drop 2
    ∧ normalize (chars "a.png") = chars "a.png" :=
  ⟨c1_normalize_single_step.1 _ (by decide),
    c1_normalize_single_step.2.2.1 _ (by decide) (by decide),
    c1_normalize_single_step.2.2.2.1 _ (by decide) (by decide)⟩

/-- Claim C5: normalization is a no-op on already-normalized inputs: for
every path starting with neither `./` nor `../`, `normalize` returns it
unchanged, hence applying it again gives the same result; it is a pure
function of the input string only. -/
theorem c5_normalize_noop_on_normalized :
    ∀ p : Str, ¬(chars "./" <+: p) → ¬(chars "../" <+: p) →
      normalize p = p ∧ normalize (normalize p) = normalize p := by
  intro p h2 h1
  have h : normalize p = p := by simp [normalize, h1, h2]
  exact ⟨h, by rw [h, h]⟩

/-- Witness for C5 at a concrete already-normalized input. -/
theorem c5_normalize_noop_on_normalized_witness :
    normalize (chars "a/b.png") = chars "a/b.png"
    ∧ normalize (normalize (chars "a/b.png")) = normalize (chars "a/b.png") :=
  c5_normalize_noop_on_normalized _ (by decide) (by decide)

/-- Claim C9: every extracted match has a nonempty path group (the pattern
requires at least one character there, so `![alt]()` yields nothing),
while the alt-text group may be empty (`![](x.png)` yields a match with
empty alt text). -/
theorem c9_nonempty_path :
    (∀ content : Str, ∀ m ∈ findall content, m.2 ≠ [])
    ∧ findall (chars "![](x.png)") = [([], chars "x.png")]
    ∧ findall (chars "![alt]()") = [] :=
  ⟨fun content m hm => findallAux_path_ne_nil _ _ m hm, by decide, by decide⟩

/-- Witness for C9 at a concrete document. -/
theorem c9_nonempty_path_witness :
    ((chars "x", chars "a.png") : Str × Str).2 ≠ [] :=
  c9_nonempty_path.1 (chars "![x](a.png)") _ (by decide)

/-- Claim C2: a match contributes a reference exactly when its path group
ends with one of the six allowed extensions, compared as a case-sensitive
suffix; paths ending `.PNG`, `.pdf` or any other suffix outside the
allow-list contribute nothing. -/
theorem c2_extension_filter :
    (∀ p : Str, isImagePath p = true ↔
      (chars ".png" <:+ p ∨ chars ".jpg" <:+ p ∨ chars ".jpeg" <:+ p ∨
        chars ".gif" <:+ p ∨ chars ".svg" <:+ p ∨ chars ".webp" <:+ p))
    ∧ (∀ file content : Str, ∀ r ∈ extractRefs file content, isImagePath r.path = true)
    ∧ (∀ file content alt p : Str, (alt, p) ∈ findall content → isImagePath p = true →
        (⟨relative_to file, alt, p⟩ : ImageRef) ∈ extractRefs file content)
    ∧ isImagePath (chars "a.PNG") = false
    ∧ extractRefs (chars "f.md") (chars "![x](a.PNG)") = []
    ∧ extractRefs (chars "f.md") (chars "![x](a.pdf)") = []
    ∧ extractRefs (chars "f.md") (chars "![x](a.png)")
        = [⟨relative_to (chars "f.md"), chars "x", chars "a.png"⟩] := by
  refine ⟨?_, ?_, ?_, by decide, by decide, by decide, by decide⟩
  · intro p
    simp [isImagePath, imageExtensions]
  · intro file content r hr
    simp only [extractRefs, List.mem_map] at hr
    obtain ⟨m, hm, rfl⟩ := hr
    exact (List.mem_filter.mp hm).2
  · intro file content alt p hmem him
    have h : (alt, p) ∈ (findall content).filter (fun m => isImagePath m.2) :=
      List.mem_filter.mpr ⟨hmem, him⟩
    exact List.mem_map_of_mem _ h

/-- Witness for C2 at a concrete document. -/
theorem c2_extension_filter_witness :
    isImagePath (chars "a.png") = true
    ∧ (⟨relative_to (chars "f.md"), chars "x", chars "a.png"⟩ : ImageRef)
        ∈ extractRefs (chars "f.md") (chars "![x](a.png)") :=
  ⟨c2_extension_filter.2.1 (chars "f.md") (chars "![x](a.png)")
      ⟨relative_to (chars "f.md"), chars "x", chars "a.png"⟩ (by decide),
    c2_extension_filter.2.2.1 (chars "f.md") (chars "![x](a.png)")
      (chars "x") (chars "a.png") (by decide) (by decide)⟩

/-- Claim C4: the unique-path output section is duplicate-free and
lexicographically sorted, and contains exactly the normalized paths of the
references in Variant A and exactly the raw paths in Variant B;
`["b.png", "a.png", "a.png"]` yields `["a.png", "b.png"]`. -/
theorem c4_unique_sorted :
    ∀ refs : List ImageRef,
      (unique_pathsA refs).Nodup
      ∧ (unique_pathsA refs).Sorted (· ≤ ·)
      ∧ (∀ x : Str, x ∈ unique_pathsA refs ↔ x ∈ refs.map (fun r => normalize r.path))
      ∧ (unique_pathsB refs).Nodup
      ∧ (unique_pathsB refs).Sorted (· ≤ ·)
      ∧ (∀ x : Str, x ∈ unique_pathsB refs ↔ x ∈ refs.map (fun r => r.path))
      ∧ unique_pathsB
          [⟨[], [], chars "b.png"⟩, ⟨[], [], chars "a.png"⟩, ⟨[], [], chars "a.png"⟩]
          = [chars "a.png", chars "b.png"] :=
  fun refs =>
    ⟨sortedUnique_nodup _, sortedUnique_sorted _, fun _ => sortedUnique_mem,
      sortedUnique_nodup _, sortedUnique_sorted _, fun _ => sortedUnique_mem, by decide⟩

/-- Claim C3: the missing report contains exactly the normalized unique
paths whose full path (the assets root joined with `static` and the path)
does not exist, in strictly increasing lexicographic order; every
normalized path that does exist is absent from the report. -/
theorem c3_missing_report :
    ∀ (ex : Str → Bool) (refs : List ImageRef),
      (∀ p : Str, p ∈ missingA ex refs ↔ p ∈ unique_pathsA refs ∧ ex (full_path p) = false)
      ∧ (missingA ex refs).Sorted (· < ·)
      ∧ (∀ p ∈ unique_pathsA refs, ex (full_path p) = true → p ∉ missingA ex refs) := by
  intro ex refs
  refine ⟨?_, ?_, ?_⟩
  · intro p
    simp [missingA, List.mem_filter]
  · exact List.Pairwise.sublist (List.filter_sublist _) (sortedUnique_sorted_lt _)
  · intro p hp hex
    simp [missingA, List.mem_filter, hex]

/-- Witness for C3: with `static/a.png` existing but not `static/b.png`,
the report is exactly `b.png`, and `a.png` is excluded. -/
theorem c3_missing_report_witness :
    missingA (fun q => decide (q = full_path (chars "a.png")))
        [⟨[], [], chars "a.png"⟩, ⟨[], [], chars "b.png"⟩]
      = [chars "b.png"]
    ∧ chars "a.png" ∉ missingA (fun q => decide (q = full_path (chars "a.png")))
        [⟨[], [], chars "a.png"⟩, ⟨[], [], chars "b.png"⟩] :=
  ⟨by decide,
    (c3_missing_report (fun q => decide (q = full_path (chars "a.png")))
        [⟨[], [], chars "a.png"⟩, ⟨[], [], chars "b.png"⟩]).2.2
      (chars "a.png") (by decide) (by decide)⟩

/-- Claim C6: document enumeration differs between the variants exactly by
the `node_modules` filter: Variant A enumerates exactly the `.md` files
whose path has no occurrence of the marker, Variant B exactly all the
`.md` files. -/
theorem c6_enumeration :
    ∀ fs : FileSys,
      (∀ f ∈ md_filesA fs, ¬(nodeModulesMarker <:+: f.path))
      ∧ (∀ f : FileEntry, f ∈ md_filesA fs ↔
          f ∈ fs ∧ chars ".md" <:+ f.path ∧ ¬(nodeModulesMarker <:+: f.path))
      ∧ (∀ f : FileEntry, f ∈ md_filesB fs ↔ f ∈ fs ∧ chars ".md" <:+ f.path) := by
  intro fs
  refine ⟨?_, ?_, ?_⟩
  · intro f hf
    have h := (List.mem_filter.mp hf).2
    simp only [Bool.and_eq_true, Bool.not_eq_true', decide_eq_false_iff_not] at h
    exact h.2
  · intro f
    simp [md_filesA, List.mem_filter, and_assoc]
  · intro f
    simp [md_filesB, List.mem_filter]

/-- Witness for C6 at a concrete two-file tree. -/
theorem c6_enumeration_witness :
    ¬(nodeModulesMarker <:+:
      (⟨chars "/home/beagle/work/brummer/docs-site/a.md", []⟩ : FileEntry).path) :=
  (c6_enumeration
      [⟨chars "/home/beagle/work/brummer/docs-site/a.md", []⟩,
        ⟨chars "/home/beagle/work/brummer/docs-site/node_modules/b.md", []⟩]).1
    ⟨chars "/home/beagle/work/brummer/docs-site/a.md", []⟩ (by decide)

/-- Claim C7: the output is plain text structured as three sections in
order — extracted references, sorted unique normalized paths, missing
paths — each headed by its literal banner line. -/
theorem c7_output_sections :
    ∀ (fs : FileSys) (ex : Str → Bool),
      outputA fs ex
        = sectionRefsA (image_refsA fs) ++ sectionUniqueA (image_refsA fs)
            ++ sectionMissingA ex (image_refsA fs)
      ∧ line (chars "=== Documentation Image References ===")
          <+: sectionRefsA (image_refsA fs)
      ∧ line (chars "\n=== Unique Image Paths (normalized) ===")
          <+: sectionUniqueA (image_refsA fs)
      ∧ line (chars "\n=== Missing Images ===")
          <+: sectionMissingA ex (image_refsA fs) := by
  intro fs ex
  refine ⟨?_, List.prefix_append _ _, List.prefix_append _ _, List.prefix_append _ _⟩
  simp [outputA, sectionRefsA, sectionUniqueA, sectionMissingA, joinLines, List.append_assoc]

/-- Claim C8 as stated is false: with an undecodable first document and a
well-formed second document containing an image reference, the run does
not skip and continue — it aborts with the decode error, and the second
document's reference is never reported. -/
theorem c8_counterexample :
    image_refsRead
        [⟨chars "a.md", none⟩, ⟨chars "b.md", some (chars "![x](img.png)")⟩]
      = Except.error (chars "UnicodeDecodeError: " ++ chars "a.md")
    ∧ image_refsRead
        [⟨chars "a.md", none⟩, ⟨chars "b.md", some (chars "![x](img.png)")⟩]
      ≠ Except.ok (extractRefs (chars "b.md") (chars "![x](img.png)")) := by
  refine ⟨rfl, ?_⟩
  intro h
  rw [show image_refsRead
      [⟨chars "a.md", none⟩, ⟨chars "b.md", some (chars "![x](img.png)")⟩]
    = Except.error (chars "UnicodeDecodeError: " ++ chars "a.md") from rfl] at h
  exact Except.noConfusion h

/-- Claim C8 amended: when a document cannot be decoded as text, the
unguarded read raises and the whole run aborts with that document's
decode error; the documents after it are not processed and no reference
list is produced. -/
theorem c8_decode_error_aborts :
    ∀ (pre : List RawFileEntry) (f : RawFileEntry) (post : List RawFileEntry),
      f.content = none → (∀ g ∈ pre, g.content ≠ none) →
      image_refsRead (pre ++ f :: post)
        = Except.error (chars "UnicodeDecodeError: " ++ f.path) := by
  intro pre f post hf
  induction pre with
  | nil =>
    intro _
    simp [image_refsRead, hf]
  | cons g gs ih =>
    intro hpre
    have hg : g.content ≠ none := hpre g (List.mem_cons_self g gs)
    have ih' := ih (fun x hx => hpre x (List.mem_cons_of_mem g hx))
    cases hgc : g.content with
    | none => exact absurd hgc hg
    | some c => simp [image_refsRead, hgc, ih']

/-- Witness for the amended C8 at a concrete run. -/
theorem c8_decode_error_aborts_witness :
    image_refsRead [⟨chars "g.md", some []⟩, ⟨chars "a.md", none⟩]
      = Except.error (chars "UnicodeDecodeError: " ++ chars "a.md") :=
  c8_decode_error_aborts [⟨chars "g.md", some []⟩] ⟨chars "a.md", none⟩ []
    rfl (by decide)

/-- Claim C10: on any filesystem where no `.md` file path contains the
`node_modules` marker, the two variants extract identical reference
sequences. -/
theorem c10_variants_agree :
    ∀ fs : FileSys,
      (∀ f ∈ fs, chars ".md" <:+ f.path → ¬(nodeModulesMarker <:+: f.path)) →
      image_refsA fs = image_refsB fs := by
  intro fs h
  have hfilter : md_filesA fs = md_filesB fs := by
    unfold md_filesA md_filesB
    apply List.filter_congr
    intro f hf
    by_cases hmd : chars ".md" <:+ f.path
    · simp [hmd, h f hf hmd]
    · simp [hmd]
  unfold image_refsA image_refsB
  rw [hfilter]

/-- Witness for C10 at a concrete one-file tree. -/
theorem c10_variants_agree_witness :
    image_refsA [⟨chars "/home/beagle/work/brummer/docs-site/a.md", chars "![x](a.png)"⟩]
      = image_refsB [⟨chars "/home/beagle/work/brummer/docs-site/a.md", chars "![x](a.png)"⟩] :=
  c10_variants_agree
    [⟨chars "/home/beagle/work/brummer/docs-site/a.md", chars "![x](a.png)"⟩] (by decide)

end ImageAudit
